import Mathlib

/-!
Verification of the COOSAJO FORZA OCR document-processing core.

The definitions below are a shallow embedding of the repository's
TypeScript source:

* `ExtractedData` mirrors the `extractedDataSchema` of `shared/schema.ts`
  (six optional string fields, two string lists, an optional confidence
  record mapping field names to numbers).
* The merge engine (`emptyCombined`, `mergeStep`, `mergePage`,
  `mergePages`, `rebuildFields`, `avgConfidence`, `combineExtractedData`)
  mirrors the body of `processDocument` in the file-processor module
  (the multi-page variant): the per-field confidence-based merge loop,
  the fieldsFound/fieldsNotFound rebuild loop, and the average
  confidence computation.
* `Document`, `UpdateDocument`, `updateDocument` mirror the Drizzle
  `documents` table row, the partial-update shape, and
  `MemStorage.updateDocument`.
* `JsonValue`, `jsGetProp`, `extractDataFromImage` mirror the response
  handling of the OpenAI extraction client in the server module.

JavaScript truthiness is modelled explicitly (`truthyStr`, `jsTruthy`);
JavaScript numbers used for confidence scores are modelled as `Nat`
(the contract restricts them to 0..100) and the single floating-point
operation, `Math.round(sum / len)`, is modelled exactly on `ℚ` with
Mathlib's `round` (both round half toward positive infinity).
-/

/-- `ExtractedData` / `ExtractedFields` as used by the merge pipeline:
six optional string fields, the two name lists, and the optional
per-field confidence record (modelled as an association list). -/
structure ExtractedData where
  cif : Option String := none
  loanNumber : Option String := none
  account : Option String := none
  fullName : Option String := none
  dpi : Option String := none
  loanAmount : Option String := none
  fieldsFound : List String := []
  fieldsNotFound : List String := []
  confidence : Option (List (String × Nat)) := none
  deriving Repr, DecidableEq

/-- The fixed field list iterated by the merge and rebuild loops:
`['cif', 'loanNumber', 'account', 'fullName', 'dpi', 'loanAmount']`. -/
def fieldNames : List String :=
  ["cif", "loanNumber", "account", "fullName", "dpi", "loanAmount"]

/-- JavaScript truthiness of an optional string value
(`undefined`, `null` and `''` are falsy). -/
def truthyStr : Option String → Bool
  | none => false
  | some s => decide (s ≠ "")

/-- Dynamic field read `data[field]` for the six schema fields. -/
def getField (d : ExtractedData) (f : String) : Option String :=
  if f = "cif" then d.cif
  else if f = "loanNumber" then d.loanNumber
  else if f = "account" then d.account
  else if f = "fullName" then d.fullName
  else if f = "dpi" then d.dpi
  else if f = "loanAmount" then d.loanAmount
  else none

/-- Dynamic field write `data[field] = v` for the six schema fields. -/
def setField (d : ExtractedData) (f : String) (v : Option String) : ExtractedData :=
  if f = "cif" then { d with cif := v }
  else if f = "loanNumber" then { d with loanNumber := v }
  else if f = "account" then { d with account := v }
  else if f = "fullName" then { d with fullName := v }
  else if f = "dpi" then { d with dpi := v }
  else if f = "loanAmount" then { d with loanAmount := v }
  else d

/-- `someConfidence?.[field] || 0`: confidence lookup defaulting to `0`
both when the record is absent, when the entry is absent, and when the
entry is `0` (falsy). -/
def confGet (c : Option (List (String × Nat))) (f : String) : Nat :=
  match c with
  | none => 0
  | some m => (m.lookup f).getD 0

/-- `obj[field] = v` on a JavaScript object modelled as an association
list: an existing key is overwritten in place, a new key is appended. -/
def assocSet : List (String × Nat) → String → Nat → List (String × Nat)
  | [], f, v => [(f, v)]
  | (k, w) :: rest, f, v =>
    if k = f then (f, v) :: rest else (k, w) :: assocSet rest f v

/-- The merge-loop guard:
`pageData[field] && (!combinedData[field] ||
  (pageData.confidence?.[field] || 0) > (combinedData.confidence?.[field] || 0))`. -/
def adoptCond (combined page : ExtractedData) (f : String) : Bool :=
  truthyStr (getField page f) &&
    (!truthyStr (getField combined f) ||
      decide (confGet page.confidence f > confGet combined.confidence f))

/-- One iteration of the inner merge loop: conditionally adopt the
page's value for field `f` and record its confidence (the confidence
write is guarded by `if (combinedData.confidence)`). -/
def mergeStep (combined page : ExtractedData) (f : String) : ExtractedData :=
  if adoptCond combined page f then
    match (setField combined f (getField page f)).confidence with
    | some m =>
      { setField combined f (getField page f) with
        confidence := some (assocSet m f (confGet page.confidence f)) }
    | none => setField combined f (getField page f)
  else combined

/-- One iteration of the outer merge loop: fold `mergeStep` over the six
fixed fields for one page. -/
def mergePage (combined page : ExtractedData) : ExtractedData :=
  fieldNames.foldl (fun acc f => mergeStep acc page f) combined

/-- The accumulator initialization of `processDocument`: all six fields
`undefined`, empty name lists, confidence `\x7b\x7d` (an empty record). -/
def emptyCombined : ExtractedData :=
  { cif := none, loanNumber := none, account := none, fullName := none,
    dpi := none, loanAmount := none,
    fieldsFound := [], fieldsNotFound := [], confidence := some [] }

/-- The full merge over all pages, in page order, starting from the
empty accumulator. -/
def mergePages (pages : List ExtractedData) : ExtractedData :=
  pages.foldl mergePage emptyCombined

/-- The rebuild loop: for each of the six fields in schema order, push
the field name onto `fieldsFound` when the merged value is truthy and
onto `fieldsNotFound` otherwise. -/
def rebuildFields (c : ExtractedData) : ExtractedData :=
  fieldNames.foldl
    (fun acc f =>
      if truthyStr (getField acc f) then
        { acc with fieldsFound := acc.fieldsFound ++ [f] }
      else
        { acc with fieldsNotFound := acc.fieldsNotFound ++ [f] })
    c

/-- The average-confidence computation: `Object.values` of the merged
confidence record (empty when the record is absent), then
`length > 0 ? Math.round(sum / length) : 0`. -/
def avgConfidence (c : Option (List (String × Nat))) : Int :=
  let values : List Nat :=
    match c with
    | some m => m.map (fun e => e.2)
    | none => []
  if values.length > 0 then
    round (((values.foldl (fun a b => a + b) 0 : Nat) : ℚ) / (values.length : ℚ))
  else 0

/-- The whole merge phase of `processDocument`: fold all pages, rebuild
the found/not-found lists, compute the average confidence. -/
def combineExtractedData (pages : List ExtractedData) : ExtractedData × Int :=
  let c := rebuildFields (mergePages pages)
  (c, avgConfidence c.confidence)

/-- The `documents` table row of `shared/schema.ts` (timestamps as
natural-number instants; nullable columns as `Option`). -/
structure Document where
  id : Nat
  filename : String
  originalFilename : String
  fileType : String
  mimeType : String
  fileSize : Nat
  filePath : String
  status : String
  uploadedAt : Nat
  processedAt : Option Nat
  extractedData : Option ExtractedData
  errorMessage : Option String
  processingTime : Option Int
  confidence : Option Int
  deriving Repr, DecidableEq

/-- The `UpdateDocument` partial (every updatable column optional; for a
nullable column the inner `Option` is the stored value, the outer
`Option` is presence in the partial). `id` and `uploadedAt` are omitted
by `updateDocumentSchema`. -/
structure UpdateDocument where
  filename : Option String := none
  originalFilename : Option String := none
  fileType : Option String := none
  mimeType : Option String := none
  fileSize : Option Nat := none
  filePath : Option String := none
  status : Option String := none
  processedAt : Option (Option Nat) := none
  extractedData : Option (Option ExtractedData) := none
  errorMessage : Option (Option String) := none
  processingTime : Option (Option Int) := none
  confidence : Option (Option Int) := none
  deriving Repr, DecidableEq

/-- The record-level body of `MemStorage.updateDocument`: spread the
existing record, spread the partial over it, then conditionally spread
`processedAt = now` when the partial sets status `processed` and the
existing `processedAt` is null. -/
def updateDocument (existing : Document) (updates : UpdateDocument) (now : Nat) : Document :=
  let merged : Document :=
    { existing with
      filename := updates.filename.getD existing.filename,
      originalFilename := updates.originalFilename.getD existing.originalFilename,
      fileType := updates.fileType.getD existing.fileType,
      mimeType := updates.mimeType.getD existing.mimeType,
      fileSize := updates.fileSize.getD existing.fileSize,
      filePath := updates.filePath.getD existing.filePath,
      status := updates.status.getD existing.status,
      processedAt := updates.processedAt.getD existing.processedAt,
      extractedData := updates.extractedData.getD existing.extractedData,
      errorMessage := updates.errorMessage.getD existing.errorMessage,
      processingTime := updates.processingTime.getD existing.processingTime,
      confidence := updates.confidence.getD existing.confidence }
  if updates.status = some "processed" ∧ existing.processedAt = none then
    { merged with processedAt := some now }
  else merged

/-- `MemStorage.updateDocument` including the map lookup and the
`undefined` return on a missing id (the store modelled as an
association list keyed by document id). -/
def storageUpdateDocument (docs : List (Nat × Document)) (id : Nat)
    (updates : UpdateDocument) (now : Nat) : Option Document :=
  match docs.lookup id with
  | none => none
  | some existing => some (updateDocument existing updates now)

/-- The `storage.updateDocument(documentId, \x7b status: 'processing' \x7d)`
partial at the head of `processDocument`. -/
def processingUpdate : UpdateDocument := { status := some "processing" }

/-- The terminal-success partial of `processDocument`. -/
def successUpdate (data : ExtractedData) (processingTime : Int) (confidence : Int) :
    UpdateDocument :=
  { status := some "processed", extractedData := some (some data),
    processingTime := some (some processingTime),
    confidence := some (some confidence),
    errorMessage := some none }

/-- The terminal-failure partial of the `catch` block of
`processDocument`: only `status` and `errorMessage`. -/
def failureUpdate (msg : String) : UpdateDocument :=
  { status := some "failed", errorMessage := some (some msg) }

/-- The retry-reset partial of the retry routes:
`\x7b status: 'queued', errorMessage: null \x7d`. -/
def retryUpdate : UpdateDocument := { status := some "queued", errorMessage := some none }

/-- A freshly created record: the upload route's insert (`status:
'queued'`, all result columns null) combined with `createDocument`
(`processedAt: null`, `uploadedAt: now`). -/
def initialDocument (id : Nat) (filename originalFilename fileType mimeType : String)
    (fileSize : Nat) (filePath : String) (uploadedAt : Nat) : Document :=
  { id := id, filename := filename, originalFilename := originalFilename,
    fileType := fileType, mimeType := mimeType, fileSize := fileSize,
    filePath := filePath, status := "queued", uploadedAt := uploadedAt,
    processedAt := none, extractedData := none, errorMessage := none,
    processingTime := none, confidence := none }

/-- One storage write to a document record, at the granularity of the
`storage.updateDocument` call sites, guarded by the statuses in which
each call site fires (`processDocument` is invoked only on `queued`
documents — fresh uploads and retry-reset documents; its terminal
writes happen while the record is `processing`; the retry routes check
`status === 'failed'`). -/
inductive DocStep : Document → Document → Prop where
  | startProcessing (d : Document) (now : Nat) (h : d.status = "queued") :
      DocStep d (updateDocument d processingUpdate now)
  | succeed (d : Document) (data : ExtractedData) (pt conf : Int) (now : Nat)
      (h : d.status = "processing") :
      DocStep d (updateDocument d (successUpdate data pt conf) now)
  | fail (d : Document) (msg : String) (now : Nat) (h : d.status = "processing") :
      DocStep d (updateDocument d (failureUpdate msg) now)
  | retry (d : Document) (now : Nat) (h : d.status = "failed") :
      DocStep d (updateDocument d retryUpdate now)

/-- Reachability of a document record: freshly created, or one storage
write after a reachable record. -/
inductive DocReachable : Document → Prop where
  | created (id : Nat) (filename originalFilename fileType mimeType : String)
      (fileSize : Nat) (filePath : String) (uploadedAt : Nat) :
      DocReachable (initialDocument id filename originalFilename fileType mimeType
        fileSize filePath uploadedAt)
  | step (d d' : Document) (hd : DocReachable d) (hs : DocStep d d') : DocReachable d'

/-- The per-page extraction loop of the PDF branch of `processDocument`:
push each successful page result, skip (continue past) a page whose
extraction threw. -/
def collectPages (results : List (Except String ExtractedData)) : List ExtractedData :=
  results.foldl
    (fun acc r =>
      match r with
      | .ok d => acc ++ [d]
      | .error _ => acc)
    []

/-- The terminal write a pipeline run performs. -/
inductive PipelineOutcome where
  | success (data : ExtractedData) (confidence : Int)
  | failure (msg : String)
  deriving Repr, DecidableEq

/-- The tail of `processDocument` for a PDF document, starting from the
per-page extraction results: collect the pages that extracted, throw
`'No data could be extracted from any page'` when none did (caught by
the surrounding catch), otherwise merge and succeed. -/
def processPdfPages (results : List (Except String ExtractedData)) : PipelineOutcome :=
  let all := collectPages results
  if all.length = 0 then .failure "No data could be extracted from any page"
  else
    let c := combineExtractedData all
    .success c.1 c.2

/-- The terminal storage write of `processDocument`: the success update
on a success outcome, the catch-block failure update on a failure. -/
def finishDocument (d : Document) (outcome : PipelineOutcome)
    (processingTime : Int) (now : Nat) : Document :=
  match outcome with
  | .success data conf => updateDocument d (successUpdate data processingTime conf) now
  | .failure msg => updateDocument d (failureUpdate msg) now

/-- Runtime JSON values, for the extraction client's handling of the
model's payload. -/
inductive JsonValue where
  | null
  | bool (b : Bool)
  | num (n : Int)
  | str (s : String)
  | arr (elems : List JsonValue)
  | obj (fields : List (String × JsonValue))

/-- JavaScript truthiness of a JSON value. -/
def jsTruthy : JsonValue → Bool
  | .null => false
  | .bool b => b
  | .num n => decide (n ≠ 0)
  | .str s => decide (s ≠ "")
  | .arr _ => true
  | .obj _ => true

/-- JavaScript property read `v[key]`: `undefined` (`none`) on objects
without the key and on non-object primitives, a `TypeError` on `null`. -/
def jsGetProp : JsonValue → String → Except String (Option JsonValue)
  | .null, k => .error ("TypeError: Cannot read properties of null (reading " ++ k ++ ")")
  | .obj fields, k => .ok (fields.lookup k)
  | _, _ => .ok none

/-- `x || undefined` on a possibly-undefined JavaScript value. -/
def orUndefined : Option JsonValue → Option JsonValue
  | none => none
  | some v => if jsTruthy v then some v else none

/-- The `ExtractedFields` object built by `extractDataFromImage`, with
the raw runtime values the untyped JavaScript keeps (the six field
properties are whatever `result.field || undefined` produced). -/
structure ExtractedFields where
  cif : Option JsonValue
  loanNumber : Option JsonValue
  account : Option JsonValue
  fullName : Option JsonValue
  dpi : Option JsonValue
  loanAmount : Option JsonValue
  fieldsFound : List JsonValue
  fieldsNotFound : List JsonValue
  confidence : JsonValue

/-- The response-handling tail of `extractDataFromImage`, applied to the
parsed payload `result`: `result.field || undefined` for the six fields,
`Array.isArray` defaults for the two lists, `result.confidence || \x7b\x7d`
for the confidence record; any thrown error is re-thrown by the catch
block as `'Failed to extract data: ...'`. -/
def extractDataFromImage (result : JsonValue) : Except String ExtractedFields :=
  let body : Except String ExtractedFields := do
    let cifV ← jsGetProp result "cif"
    let loanNumberV ← jsGetProp result "loanNumber"
    let accountV ← jsGetProp result "account"
    let fullNameV ← jsGetProp result "fullName"
    let dpiV ← jsGetProp result "dpi"
    let loanAmountV ← jsGetProp result "loanAmount"
    let fieldsFoundV ← jsGetProp result "fieldsFound"
    let fieldsNotFoundV ← jsGetProp result "fieldsNotFound"
    let confidenceV ← jsGetProp result "confidence"
    .ok
      { cif := orUndefined cifV,
        loanNumber := orUndefined loanNumberV,
        account := orUndefined accountV,
        fullName := orUndefined fullNameV,
        dpi := orUndefined dpiV,
        loanAmount := orUndefined loanAmountV,
        fieldsFound :=
          match fieldsFoundV with
          | some (.arr xs) => xs
          | _ => [],
        fieldsNotFound :=
          match fieldsNotFoundV with
          | some (.arr xs) => xs
          | _ => [],
        confidence :=
          match confidenceV with
          | some v => if jsTruthy v then v else .obj []
          | none => .obj [] }
  match body with
  | .error e => .error ("Failed to extract data: " ++ e)
  | .ok r => .ok r

/-- Optional-chained confidence entry lookup `c?.[f]`, before the
`|| 0` default. -/
def confLookup (c : Option (List (String × Nat))) (f : String) : Option Nat :=
  match c with
  | none => none
  | some m => m.lookup f

/-- The spec's description of the persisted average: the rounded
arithmetic mean of the confidence values across only the entries present
in the final merged confidence map, `0` when the map is empty. -/
def specRoundedMean (m : List (String × Nat)) : Int :=
  if m.length = 0 then 0
  else round ((((m.map (fun e => e.2)).sum : Nat) : ℚ) / (m.length : ℚ))

/-- Pure JavaScript property read on a non-null value (`undefined` for
missing keys and non-object primitives). -/
def jsProp (v : JsonValue) (k : String) : Option JsonValue :=
  match v with
  | .obj fields => fields.lookup k
  | _ => none

/-- The spec's description of a cleaned field value: the payload's value
when it is a non-empty string, absent otherwise. -/
def nonEmptyStringOf (v : Option JsonValue) : Option JsonValue :=
  match v with
  | some (.str s) => if s = "" then none else some (.str s)
  | _ => none

/-- A payload field entry is tame when it is absent, falsy, or a string
(the shapes the model's contract allows: a string value or `null`). -/
def wfFieldValue : Option JsonValue → Bool
  | none => true
  | some (.str _) => true
  | some v => !jsTruthy v

/-- A payload confidence entry is tame when it is absent, falsy, or an
object (the contract's mapping shape). -/
def wfConfValue : Option JsonValue → Bool
  | none => true
  | some (.obj _) => true
  | some v => !jsTruthy v

/-- A returned field value is well formed when it is absent or a
non-empty string. -/
def wfOutValue : Option JsonValue → Bool
  | none => true
  | some (.str s) => decide (s ≠ "")
  | some _ => false

/-- All six returned fields are well formed. -/
def wellFormedSixFields (r : ExtractedFields) : Bool :=
  wfOutValue r.cif && wfOutValue r.loanNumber && wfOutValue r.account &&
    wfOutValue r.fullName && wfOutValue r.dpi && wfOutValue r.loanAmount

/-- The code's cleaning of the confidence entry: `result.confidence || \x7b\x7d`. -/
def jsConfDefault (v : Option JsonValue) : JsonValue :=
  match v with
  | some w => if jsTruthy w then w else JsonValue.obj []
  | none => JsonValue.obj []

/-- The spec's description of the cleaned confidence entry: the
payload's object, or the empty mapping. -/
def specConfidenceOf (v : Option JsonValue) : JsonValue :=
  match v with
  | some (.obj cm) => JsonValue.obj cm
  | _ => JsonValue.obj []

/-- The code's cleaning of the two name lists:
`Array.isArray(x) ? x : []`. -/
def specArrayOf (v : Option JsonValue) : List JsonValue :=
  match v with
  | some (.arr xs) => xs
  | _ => []

/-- A concrete freshly uploaded record used by witnesses. -/
def docExample : Document :=
  { id := 1, filename := "a.png", originalFilename := "a.png", fileType := "image",
    mimeType := "image/png", fileSize := 4, filePath := "up/a.png", status := "queued",
    uploadedAt := 100, processedAt := none, extractedData := none, errorMessage := none,
    processingTime := none, confidence := none }

/-- Page A of the tie-break scenario: `cif` at confidence 80. -/
def pageTieA : ExtractedData :=
  { cif := some "A", confidence := some [("cif", 80)] }

/-- Page B of the tie-break scenario: `cif` at equal confidence 80. -/
def pageTieB : ExtractedData :=
  { cif := some "B", confidence := some [("cif", 80)] }

/-- Page B of the override scenario: `cif` at strictly higher
confidence 81. -/
def pageOverrideB : ExtractedData :=
  { cif := some "B", confidence := some [("cif", 81)] }

/-- A page carrying two truthy fields, only one of which has a
confidence entry. -/
def pageHalf : ExtractedData :=
  { cif := some "A", fullName := some "B", confidence := some [("cif", 100)] }

/-- A page carrying a truthy field with no confidence record at all. -/
def pageNoConf : ExtractedData :=
  { cif := some "X", confidence := none }

/-- A concrete malformed-but-tame payload: one good field, one null
field, one empty-string field, a non-array `fieldsNotFound`, and an
object confidence. -/
def payloadExample : JsonValue :=
  JsonValue.obj
    [("cif", .str "C-001"), ("loanNumber", .null), ("account", .str ""),
     ("fieldsFound", .arr [.str "cif"]), ("fieldsNotFound", .num 3),
     ("confidence", .obj [("cif", .num 92)])]

/-- Reading any field of the empty accumulator gives `undefined`. -/
theorem getField_emptyCombined (f : String) : getField emptyCombined f = none := by
  unfold getField emptyCombined
  split_ifs <;> rfl

/-- A field read on a record that only had its `confidence` replaced. -/
theorem getField_confUpdate (d : ExtractedData) (x : Option (List (String × Nat)))
    (f : String) : getField { d with confidence := x } f = getField d f := rfl

/-- A field read on a record that only had its `fieldsFound` replaced. -/
theorem getField_foundUpdate (d : ExtractedData) (l : List String) (f : String) :
    getField { d with fieldsFound := l } f = getField d f := rfl

/-- A field read on a record that only had its `fieldsNotFound` replaced. -/
theorem getField_notFoundUpdate (d : ExtractedData) (l : List String) (f : String) :
    getField { d with fieldsNotFound := l } f = getField d f := rfl

/-- Reading a schema field just after writing it returns the written value. -/
theorem getField_setField_self (d : ExtractedData) (f : String) (v : Option String)
    (hf : f ∈ fieldNames) : getField (setField d f v) f = v := by
  fin_cases hf <;> simp [getField, setField]

/-- Writing one field does not change the read of a different field. -/
theorem getField_setField_ne (d : ExtractedData) (g f : String) (v : Option String)
    (hne : g ≠ f) : getField (setField d g v) f = getField d f := by
  unfold setField
  split_ifs with h1 h2 h3 h4 h5 h6
  · subst h1; simp [getField, Ne.symm hne]
  · subst h2; simp [getField, Ne.symm hne]
  · subst h3; simp [getField, Ne.symm hne]
  · subst h4; simp [getField, Ne.symm hne]
  · subst h5; simp [getField, Ne.symm hne]
  · subst h6; simp [getField, Ne.symm hne]
  · rfl

/-- A field write never touches the confidence record. -/
theorem setField_confidence (d : ExtractedData) (f : String) (v : Option String) :
    (setField d f v).confidence = d.confidence := by
  unfold setField; split_ifs <;> rfl

/-- A field write never touches `fieldsFound`. -/
theorem setField_fieldsFound (d : ExtractedData) (f : String) (v : Option String) :
    (setField d f v).fieldsFound = d.fieldsFound := by
  unfold setField; split_ifs <;> rfl

/-- A field write never touches `fieldsNotFound`. -/
theorem setField_fieldsNotFound (d : ExtractedData) (f : String) (v : Option String) :
    (setField d f v).fieldsNotFound = d.fieldsNotFound := by
  unfold setField; split_ifs <;> rfl

/-- Looking up the key just written by `assocSet`. -/
theorem assocSet_lookup_self (m : List (String × Nat)) (f : String) (v : Nat) :
    (assocSet m f v).lookup f = some v := by
  induction m with
  | nil => simp [assocSet, List.lookup]
  | cons kv rest ih =>
    obtain ⟨k, w⟩ := kv
    by_cases h : k = f
    · subst h; simp [assocSet, List.lookup]
    · have hfk : (f == k) = false := beq_eq_false_iff_ne.mpr (Ne.symm h)
      simp [assocSet, h, List.lookup, hfk, ih]

/-- Looking up a different key after an `assocSet` write. -/
theorem assocSet_lookup_ne (m : List (String × Nat)) (f k : String) (v : Nat)
    (hne : k ≠ f) : (assocSet m f v).lookup k = m.lookup k := by
  have hkf : (k == f) = false := beq_eq_false_iff_ne.mpr hne
  induction m with
  | nil => simp [assocSet, List.lookup, hkf]
  | cons kv rest ih =>
    obtain ⟨k', w⟩ := kv
    by_cases h : k' = f
    · subst h
      simp [assocSet, List.lookup, hkf]
    · by_cases hkk : k = k'
      · subst hkk; simp [assocSet, h, List.lookup]
      · have hkk' : (k == k') = false := beq_eq_false_iff_ne.mpr hkk
        simp [assocSet, h, List.lookup, hkk', ih]

/-- `confGet` is `confLookup` with the `|| 0` default applied. -/
theorem confGet_eq_confLookup (c : Option (List (String × Nat))) (f : String) :
    confGet c f = (confLookup c f).getD 0 := by
  cases c <;> rfl

/-- A merge iteration never touches `fieldsFound`. -/
theorem mergeStep_fieldsFound (c p : ExtractedData) (f : String) :
    (mergeStep c p f).fieldsFound = c.fieldsFound := by
  unfold mergeStep
  split_ifs with h
  · cases hc : (setField c f (getField p f)).confidence with
    | none => exact setField_fieldsFound c f _
    | some m => exact setField_fieldsFound c f _
  · rfl

/-- A merge iteration never touches `fieldsNotFound`. -/
theorem mergeStep_fieldsNotFound (c p : ExtractedData) (f : String) :
    (mergeStep c p f).fieldsNotFound = c.fieldsNotFound := by
  unfold mergeStep
  split_ifs with h
  · cases hc : (setField c f (getField p f)).confidence with
    | none => exact setField_fieldsNotFound c f _
    | some m => exact setField_fieldsNotFound c f _
  · rfl

/-- A merge iteration keeps the confidence record present. -/
theorem mergeStep_confidence_isSome (c p : ExtractedData) (f : String)
    (h : c.confidence.isSome = true) : (mergeStep c p f).confidence.isSome = true := by
  unfold mergeStep
  split_ifs with ha
  · cases hc : (setField c f (getField p f)).confidence with
    | none => rw [setField_confidence] at hc; rw [hc] at h; simp at h
    | some m => simp
  · exact h

/-- A merge iteration for one field does not change another field's value. -/
theorem getField_mergeStep_ne (c p : ExtractedData) (g f : String) (hne : g ≠ f) :
    getField (mergeStep c p g) f = getField c f := by
  unfold mergeStep
  split_ifs with h
  · cases hc : (setField c g (getField p g)).confidence with
    | none => exact getField_setField_ne c g f _ hne
    | some m =>
      rw [getField_confUpdate]
      exact getField_setField_ne c g f _ hne
  · rfl

/-- A merge iteration for one field does not change another field's
confidence entry. -/
theorem confLookup_mergeStep_ne (c p : ExtractedData) (g f : String) (hne : g ≠ f) :
    confLookup (mergeStep c p g).confidence f = confLookup c.confidence f := by
  unfold mergeStep
  split_ifs with h
  · cases hc : (setField c g (getField p g)).confidence with
    | none =>
      rw [setField_confidence] at hc
      simp [confLookup, setField_confidence, hc]
    | some m =>
      rw [setField_confidence] at hc
      simp [confLookup, hc, assocSet_lookup_ne m g f _ (Ne.symm hne)]
  · rfl

/-- The effect of one merge iteration on its own field's value. -/
theorem getField_mergeStep_self (c p : ExtractedData) (f : String) (hf : f ∈ fieldNames) :
    getField (mergeStep c p f) f =
      if adoptCond c p f then getField p f else getField c f := by
  unfold mergeStep
  split_ifs with h
  · cases hc : (setField c f (getField p f)).confidence with
    | none => exact getField_setField_self c f _ hf
    | some m =>
      rw [getField_confUpdate]
      exact getField_setField_self c f _ hf
  · rfl

/-- The effect of one merge iteration on its own field's confidence
entry, when the accumulator's confidence record is present (as it
always is, starting from `\x7b\x7d`). -/
theorem confLookup_mergeStep_self (c p : ExtractedData) (f : String)
    (hsome : c.confidence.isSome = true) :
    confLookup (mergeStep c p f).confidence f =
      if adoptCond c p f then some (confGet p.confidence f)
      else confLookup c.confidence f := by
  unfold mergeStep
  split_ifs with h
  · cases hc : (setField c f (getField p f)).confidence with
    | none => rw [setField_confidence] at hc; rw [hc] at hsome; simp at hsome
    | some m => simp [confLookup, assocSet_lookup_self]
  · rfl

/-- The adoption guard only reads the accumulator's value and
confidence entry for the field at hand. -/
theorem adoptCond_congr (c c' p : ExtractedData) (f : String)
    (h1 : getField c f = getField c' f)
    (h2 : confLookup c.confidence f = confLookup c'.confidence f) :
    adoptCond c p f = adoptCond c' p f := by
  unfold adoptCond
  rw [h1, confGet_eq_confLookup c.confidence f, h2, ← confGet_eq_confLookup c'.confidence f]

/-- Folding merge iterations over fields that do not include `f` leaves
field `f`'s value and confidence entry unchanged. -/
theorem mergeSteps_preserve (p : ExtractedData) (f : String) :
    ∀ (l : List String), f ∉ l → ∀ c : ExtractedData,
      getField (l.foldl (fun a g => mergeStep a p g) c) f = getField c f ∧
      confLookup (l.foldl (fun a g => mergeStep a p g) c).confidence f =
        confLookup c.confidence f := by
  intro l
  induction l with
  | nil => intro _ c; exact ⟨rfl, rfl⟩
  | cons g rest ih =>
    intro hf c
    have hgf : g ≠ f := by
      intro h; exact hf (h ▸ List.mem_cons_self g rest)
    have hfr : f ∉ rest := fun h => hf (List.mem_cons_of_mem g h)
    simp only [List.foldl_cons]
    obtain ⟨i1, i2⟩ := ih hfr (mergeStep c p g)
    exact ⟨i1.trans (getField_mergeStep_ne c p g f hgf),
           i2.trans (confLookup_mergeStep_ne c p g f hgf)⟩

/-- Folding merge iterations keeps the confidence record present. -/
theorem mergeSteps_confidence_isSome (p : ExtractedData) :
    ∀ (l : List String) (c : ExtractedData), c.confidence.isSome = true →
      (l.foldl (fun a g => mergeStep a p g) c).confidence.isSome = true := by
  intro l
  induction l with
  | nil => intro c h; exact h
  | cons g rest ih =>
    intro c h
    simp only [List.foldl_cons]
    exact ih _ (mergeStep_confidence_isSome c p g h)

/-- Characterization of the inner merge loop over a duplicate-free field
list containing `f`: field `f` ends up adopted from the page exactly
when the adoption guard held at loop entry. -/
theorem mergeSteps_char (p : ExtractedData) (f : String) (hf6 : f ∈ fieldNames) :
    ∀ (l : List String), l.Nodup → f ∈ l →
      ∀ c : ExtractedData, c.confidence.isSome = true →
      getField (l.foldl (fun a g => mergeStep a p g) c) f =
        (if adoptCond c p f then getField p f else getField c f) ∧
      confLookup (l.foldl (fun a g => mergeStep a p g) c).confidence f =
        (if adoptCond c p f then some (confGet p.confidence f)
         else confLookup c.confidence f) := by
  intro l
  induction l with
  | nil => intro _ hmem; exact absurd hmem (List.not_mem_nil f)
  | cons g rest ih =>
    intro hnd hmem c hsome
    simp only [List.foldl_cons]
    rcases List.mem_cons.mp hmem with heq | hmem'
    · subst heq
      have hnr : f ∉ rest := (List.nodup_cons.mp hnd).1
      obtain ⟨h1, h2⟩ := mergeSteps_preserve p f rest hnr (mergeStep c p f)
      rw [h1, h2, getField_mergeStep_self c p f hf6, confLookup_mergeStep_self c p f hsome]
      exact ⟨rfl, rfl⟩
    · have hgf : g ≠ f := by
        intro h; subst h; exact (List.nodup_cons.mp hnd).1 hmem'
      obtain ⟨i1, i2⟩ :=
        ih (List.nodup_cons.mp hnd).2 hmem' (mergeStep c p g)
          (mergeStep_confidence_isSome c p g hsome)
      rw [i1, i2, getField_mergeStep_ne c p g f hgf, confLookup_mergeStep_ne c p g f hgf,
        adoptCond_congr (mergeStep c p g) c p f (getField_mergeStep_ne c p g f hgf)
          (confLookup_mergeStep_ne c p g f hgf)]
      exact ⟨rfl, rfl⟩

/-- Per-field characterization of merging a whole page. -/
theorem mergePage_char (c p : ExtractedData) (f : String) (hf : f ∈ fieldNames)
    (hsome : c.confidence.isSome = true) :
    getField (mergePage c p) f =
      (if adoptCond c p f then getField p f else getField c f) ∧
    confLookup (mergePage c p).confidence f =
      (if adoptCond c p f then some (confGet p.confidence f)
       else confLookup c.confidence f) :=
  mergeSteps_char p f hf fieldNames (by decide) hf c hsome

/-- Merging a page keeps the confidence record present. -/
theorem mergePage_confidence_isSome (c p : ExtractedData)
    (h : c.confidence.isSome = true) : (mergePage c p).confidence.isSome = true :=
  mergeSteps_confidence_isSome p fieldNames c h

/-- Merging a page never touches the name lists. -/
theorem mergePage_lists (c p : ExtractedData) :
    (mergePage c p).fieldsFound = c.fieldsFound ∧
    (mergePage c p).fieldsNotFound = c.fieldsNotFound := by
  have aux : ∀ (l : List String) (c : ExtractedData),
      (l.foldl (fun a g => mergeStep a p g) c).fieldsFound = c.fieldsFound ∧
      (l.foldl (fun a g => mergeStep a p g) c).fieldsNotFound = c.fieldsNotFound := by
    intro l
    induction l with
    | nil => intro c; exact ⟨rfl, rfl⟩
    | cons g rest ih =>
      intro c
      simp only [List.foldl_cons]
      obtain ⟨i1, i2⟩ := ih (mergeStep c p g)
      exact ⟨i1.trans (mergeStep_fieldsFound c p g),
             i2.trans (mergeStep_fieldsNotFound c p g)⟩
  exact aux fieldNames c

/-- Appending one more page to the merged sequence merges it into the
accumulated result. -/
theorem mergePages_append (ps : List ExtractedData) (p : ExtractedData) :
    mergePages (ps ++ [p]) = mergePage (mergePages ps) p := by
  simp [mergePages, List.foldl_append]

/-- The merged accumulator always carries a confidence record. -/
theorem mergePages_confidence_isSome (ps : List ExtractedData) :
    (mergePages ps).confidence.isSome = true := by
  have aux : ∀ (l : List ExtractedData) (c : ExtractedData), c.confidence.isSome = true →
      (l.foldl mergePage c).confidence.isSome = true := by
    intro l
    induction l with
    | nil => intro c h; exact h
    | cons q rest ih =>
      intro c h
      simp only [List.foldl_cons]
      exact ih _ (mergePage_confidence_isSome c q h)
  exact aux ps emptyCombined rfl

/-- The merged accumulator's name lists are still empty before the
rebuild loop runs. -/
theorem mergePages_lists (ps : List ExtractedData) :
    (mergePages ps).fieldsFound = [] ∧ (mergePages ps).fieldsNotFound = [] := by
  have aux : ∀ (l : List ExtractedData) (c : ExtractedData),
      (l.foldl mergePage c).fieldsFound = c.fieldsFound ∧
      (l.foldl mergePage c).fieldsNotFound = c.fieldsNotFound := by
    intro l
    induction l with
    | nil => intro c; exact ⟨rfl, rfl⟩
    | cons q rest ih =>
      intro c
      simp only [List.foldl_cons]
      obtain ⟨i1, i2⟩ := ih (mergePage c q)
      obtain ⟨j1, j2⟩ := mergePage_lists c q
      exact ⟨i1.trans j1, i2.trans j2⟩
  exact aux ps emptyCombined

/-- Reading a field outside the fixed six always gives `undefined`. -/
theorem getField_not_mem (d : ExtractedData) (f : String) (hf : f ∉ fieldNames) :
    getField d f = none := by
  simp only [fieldNames, List.mem_cons, List.not_mem_nil, or_false, not_or] at hf
  obtain ⟨h1, h2, h3, h4, h5, h6⟩ := hf
  simp [getField, h1, h2, h3, h4, h5, h6]

/-- Every merged field value is either absent or a non-empty string: an
adopted value passed the truthiness guard, and empty strings are never
adopted. -/
theorem mergePages_nice (ps : List ExtractedData) (f : String) :
    getField (mergePages ps) f = none ∨ truthyStr (getField (mergePages ps) f) = true := by
  by_cases hf : f ∈ fieldNames
  · have aux : ∀ (l : List ExtractedData) (c : ExtractedData), c.confidence.isSome = true →
        (getField c f = none ∨ truthyStr (getField c f) = true) →
        (getField (l.foldl mergePage c) f = none ∨
          truthyStr (getField (l.foldl mergePage c) f) = true) := by
      intro l
      induction l with
      | nil => intro c _ h; exact h
      | cons q rest ih =>
        intro c hsome h
        simp only [List.foldl_cons]
        refine ih _ (mergePage_confidence_isSome c q hsome) ?_
        obtain ⟨h1, _⟩ := mergePage_char c q f hf hsome
        rw [h1]
        by_cases ha : adoptCond c q f = true
        · rw [if_pos ha]
          unfold adoptCond at ha
          right
          exact ((Bool.and_eq_true _ _).mp ha).1
        · rw [if_neg ha]
          exact h
    exact aux ps emptyCombined rfl (Or.inl (getField_emptyCombined f))
  · exact Or.inl (getField_not_mem _ f hf)

/-- For an absent-or-truthy optional string, falsiness coincides with
absence. -/
theorem truthy_false_iff_none (x : Option String)
    (hx : x = none ∨ truthyStr x = true) : truthyStr x = false ↔ x = none := by
  cases x with
  | none => simp [truthyStr]
  | some s =>
    rcases hx with h | h
    · simp at h
    · simp [h]

/-- For an absent-or-truthy optional string, truthiness coincides with
presence. -/
theorem truthy_eq_isSome (x : Option String)
    (hx : x = none ∨ truthyStr x = true) : truthyStr x = x.isSome := by
  cases x with
  | none => rfl
  | some s =>
    rcases hx with h | h
    · simp at h
    · simp [h]

/-- The rebuild loop appends, in schema order, the truthy fields to
`fieldsFound` and the rest to `fieldsNotFound`, touching nothing else. -/
theorem rebuildFields_spec (c : ExtractedData) :
    (rebuildFields c).fieldsFound =
      c.fieldsFound ++ fieldNames.filter (fun f => truthyStr (getField c f)) ∧
    (rebuildFields c).fieldsNotFound =
      c.fieldsNotFound ++ fieldNames.filter (fun f => !truthyStr (getField c f)) ∧
    (rebuildFields c).confidence = c.confidence ∧
    (∀ f, getField (rebuildFields c) f = getField c f) := by
  have aux : ∀ (l : List String) (a : ExtractedData),
      (∀ f, getField a f = getField c f) → a.confidence = c.confidence →
      (l.foldl
          (fun acc f =>
            if truthyStr (getField acc f) then
              { acc with fieldsFound := acc.fieldsFound ++ [f] }
            else
              { acc with fieldsNotFound := acc.fieldsNotFound ++ [f] }) a).fieldsFound =
        a.fieldsFound ++ l.filter (fun f => truthyStr (getField c f)) ∧
      (l.foldl
          (fun acc f =>
            if truthyStr (getField acc f) then
              { acc with fieldsFound := acc.fieldsFound ++ [f] }
            else
              { acc with fieldsNotFound := acc.fieldsNotFound ++ [f] }) a).fieldsNotFound =
        a.fieldsNotFound ++ l.filter (fun f => !truthyStr (getField c f)) ∧
      (l.foldl
          (fun acc f =>
            if truthyStr (getField acc f) then
              { acc with fieldsFound := acc.fieldsFound ++ [f] }
            else
              { acc with fieldsNotFound := acc.fieldsNotFound ++ [f] }) a).confidence =
        c.confidence ∧
      (∀ f, getField
          (l.foldl
            (fun acc f =>
              if truthyStr (getField acc f) then
                { acc with fieldsFound := acc.fieldsFound ++ [f] }
              else
                { acc with fieldsNotFound := acc.fieldsNotFound ++ [f] }) a) f =
        getField c f) := by
    intro l
    induction l with
    | nil =>
      intro a ha hc
      exact ⟨by simp, by simp, hc, ha⟩
    | cons g rest ih =>
      intro a ha hc
      simp only [List.foldl_cons]
      by_cases htr : truthyStr (getField c g) = true
      · have ht' : truthyStr (getField a g) = true := by rw [ha g]; exact htr
        rw [if_pos ht']
        obtain ⟨i1, i2, i3, i4⟩ :=
          ih { a with fieldsFound := a.fieldsFound ++ [g] }
            (fun f => (getField_foundUpdate a _ f).trans (ha f)) hc
        refine ⟨?_, ?_, i3, i4⟩
        · rw [i1]; simp [List.filter_cons, htr]
        · rw [i2]; simp [List.filter_cons, htr]
      · simp only [Bool.not_eq_true] at htr
        have ht' : truthyStr (getField a g) = false := by rw [ha g]; exact htr
        rw [if_neg (by simp [ht'])]
        obtain ⟨i1, i2, i3, i4⟩ :=
          ih { a with fieldsNotFound := a.fieldsNotFound ++ [g] }
            (fun f => (getField_notFoundUpdate a _ f).trans (ha f)) hc
        refine ⟨?_, ?_, i3, i4⟩
        · rw [i1]; simp [List.filter_cons, htr]
        · rw [i2]; simp [List.filter_cons, htr]
  simpa using aux fieldNames c (fun _ => rfl) rfl

/-- Folding `+` from `0` over a list of naturals computes its sum. -/
theorem foldl_add_eq_sum (l : List Nat) : ∀ a : Nat,
    l.foldl (fun x y => x + y) a = a + l.sum := by
  induction l with
  | nil => intro a; simp
  | cons x rest ih =>
    intro a
    simp [List.foldl_cons, ih, List.sum_cons, Nat.add_assoc]

/-- The code's average computation agrees with the spec's rounded mean. -/
theorem avgConfidence_eq_specRoundedMean (m : List (String × Nat)) :
    avgConfidence (some m) = specRoundedMean m := by
  unfold avgConfidence specRoundedMean
  dsimp only
  rcases Nat.eq_zero_or_pos m.length with h | h
  · simp [h, List.length_map]
  · have h0 : m.length ≠ 0 := Nat.pos_iff_ne_zero.mp h
    rw [if_pos (by simpa [List.length_map] using h), if_neg h0,
      foldl_add_eq_sum, Nat.zero_add, List.length_map]

/-- The `status: 'processing'` write only changes `status`. -/
theorem updateDocument_processing (d : Document) (now : Nat) :
    updateDocument d processingUpdate now = { d with status := "processing" } := by
  simp [updateDocument, processingUpdate]

/-- The terminal-success write: results stored, error cleared, and
`processedAt` stamped exactly when it was still null. -/
theorem updateDocument_success (d : Document) (data : ExtractedData) (pt cf : Int)
    (now : Nat) :
    updateDocument d (successUpdate data pt cf) now =
      { d with
        status := "processed"
        extractedData := some data
        processingTime := some pt
        confidence := some cf
        errorMessage := none
        processedAt := if d.processedAt = none then some now else d.processedAt } := by
  by_cases h : d.processedAt = none
  · simp [updateDocument, successUpdate, h]
  · simp [updateDocument, successUpdate, h]

/-- The terminal-failure write only changes `status` and `errorMessage`. -/
theorem updateDocument_failure (d : Document) (msg : String) (now : Nat) :
    updateDocument d (failureUpdate msg) now =
      { d with status := "failed", errorMessage := some msg } := by
  simp [updateDocument, failureUpdate]

/-- The retry-reset write only changes `status` and clears `errorMessage`. -/
theorem updateDocument_retry (d : Document) (now : Nat) :
    updateDocument d retryUpdate now =
      { d with status := "queued", errorMessage := none } := by
  simp [updateDocument, retryUpdate]

/-- The page-collection loop is `filterMap` of the successful results. -/
theorem collectPages_eq_filterMap (results : List (Except String ExtractedData)) :
    collectPages results = results.filterMap Except.toOption := by
  have aux : ∀ (l : List (Except String ExtractedData)) (acc : List ExtractedData),
      l.foldl
          (fun acc r =>
            match r with
            | .ok d => acc ++ [d]
            | .error _ => acc) acc =
        acc ++ l.filterMap Except.toOption := by
    intro l
    induction l with
    | nil => intro acc; simp
    | cons r rest ih =>
      intro acc
      cases r with
      | ok d => simp [List.foldl_cons, ih, Except.toOption]
      | error e => simp [List.foldl_cons, ih, Except.toOption]
  simpa [collectPages] using aux results []

/-- A page result yields no data exactly when it is a thrown error. -/
theorem toOption_eq_none_iff (r : Except String ExtractedData) :
    r.toOption = none ↔ r.isOk = false := by
  cases r <;> simp [Except.toOption, Except.isOk, Except.toBool]

/-- The collected pages are empty exactly when every page's extraction
threw. -/
theorem collectPages_nil_iff (results : List (Except String ExtractedData)) :
    collectPages results = [] ↔ ∀ r ∈ results, r.isOk = false := by
  rw [collectPages_eq_filterMap, List.filterMap_eq_nil_iff]
  constructor
  · intro h r hr; exact (toOption_eq_none_iff r).mp (h r hr)
  · intro h r hr; exact (toOption_eq_none_iff r).mpr (h r hr)

/-- Dropping the failed page results before collecting changes nothing:
failed pages are skipped either way. -/
theorem collectPages_filter (results : List (Except String ExtractedData)) :
    collectPages (results.filter (fun r => r.isOk)) = collectPages results := by
  rw [collectPages_eq_filterMap, collectPages_eq_filterMap]
  induction results with
  | nil => rfl
  | cons r rest ih =>
    cases r with
    | ok d =>
      simp only [Except.isOk, Except.toBool] at ih
      simp [List.filter_cons, Except.isOk, Except.toBool, Except.toOption, ih]
    | error e =>
      simp only [Except.isOk, Except.toBool] at ih
      simp [List.filter_cons, Except.isOk, Except.toBool, Except.toOption, ih]

/-- On any payload other than `null`, a property read succeeds. -/
theorem jsGetProp_eq (v : JsonValue) (k : String) (h : v ≠ JsonValue.null) :
    jsGetProp v k = .ok (jsProp v k) := by
  cases v with
  | null => exact absurd rfl h
  | bool b => rfl
  | num n => rfl
  | str s => rfl
  | arr xs => rfl
  | obj fields => rfl

/-- On any payload other than `null`, the client's response handling
computes exactly the truthiness-guarded record. -/
theorem extractDataFromImage_eq (result : JsonValue) (h : result ≠ JsonValue.null) :
    extractDataFromImage result = .ok
      { cif := orUndefined (jsProp result "cif")
        loanNumber := orUndefined (jsProp result "loanNumber")
        account := orUndefined (jsProp result "account")
        fullName := orUndefined (jsProp result "fullName")
        dpi := orUndefined (jsProp result "dpi")
        loanAmount := orUndefined (jsProp result "loanAmount")
        fieldsFound :=
          match jsProp result "fieldsFound" with
          | some (.arr xs) => xs
          | _ => []
        fieldsNotFound :=
          match jsProp result "fieldsNotFound" with
          | some (.arr xs) => xs
          | _ => []
        confidence :=
          match jsProp result "confidence" with
          | some v => if jsTruthy v then v else .obj []
          | none => .obj [] } := by
  cases result with
  | null => exact absurd rfl h
  | bool b => rfl
  | num n => rfl
  | str s => rfl
  | arr xs => rfl
  | obj fields => rfl

/-- On a tame field entry, the code's `|| undefined` cleaning coincides
with the spec's non-empty-string cleaning. -/
theorem orUndefined_eq_nonEmptyStringOf (v : Option JsonValue)
    (h : wfFieldValue v = true) : orUndefined v = nonEmptyStringOf v := by
  cases v with
  | none => rfl
  | some j =>
    cases j with
    | null => rfl
    | bool b =>
      cases b with
      | false => rfl
      | true => simp [wfFieldValue, jsTruthy] at h
    | num n =>
      have hn : n = 0 := by simpa [wfFieldValue, jsTruthy] using h
      subst hn; rfl
    | str s =>
      by_cases hs : s = ""
      · subst hs; rfl
      · simp [orUndefined, nonEmptyStringOf, jsTruthy, hs]
    | arr xs => simp [wfFieldValue, jsTruthy] at h
    | obj fields => simp [wfFieldValue, jsTruthy] at h

/-- On a tame confidence entry, the code's `|| \x7b\x7d` default coincides
with the spec's object-or-empty-mapping description. -/
theorem confDefault_eq (v : Option JsonValue) (h : wfConfValue v = true) :
    jsConfDefault v = specConfidenceOf v := by
  cases v with
  | none => rfl
  | some j =>
    cases j with
    | null => rfl
    | bool b =>
      cases b with
      | false => rfl
      | true => simp [wfConfValue, jsTruthy] at h
    | num n =>
      have hn : n = 0 := by simpa [wfConfValue, jsTruthy] using h
      subst hn; rfl
    | str s =>
      have hs : s = "" := by simpa [wfConfValue, jsTruthy] using h
      subst hs; rfl
    | arr xs => simp [wfConfValue, jsTruthy] at h
    | obj fields => simp [jsConfDefault, specConfidenceOf, jsTruthy]

/-- The spec's cleaning always yields a well-formed field value. -/
theorem wfOutValue_nonEmptyStringOf (v : Option JsonValue) :
    wfOutValue (nonEmptyStringOf v) = true := by
  cases v with
  | none => rfl
  | some j =>
    cases j with
    | str s =>
      by_cases hs : s = ""
      · subst hs; rfl
      · simp [nonEmptyStringOf, wfOutValue, hs]
    | null => rfl
    | bool b => rfl
    | num n => rfl
    | arr xs => rfl
    | obj fields => rfl

/-- Full record characterization of `MemStorage.updateDocument`. -/
theorem updateDocument_spec (existing : Document) (u : UpdateDocument) (now : Nat) :
    updateDocument existing u now =
      { existing with
        filename := u.filename.getD existing.filename
        originalFilename := u.originalFilename.getD existing.originalFilename
        fileType := u.fileType.getD existing.fileType
        mimeType := u.mimeType.getD existing.mimeType
        fileSize := u.fileSize.getD existing.fileSize
        filePath := u.filePath.getD existing.filePath
        status := u.status.getD existing.status
        extractedData := u.extractedData.getD existing.extractedData
        errorMessage := u.errorMessage.getD existing.errorMessage
        processingTime := u.processingTime.getD existing.processingTime
        confidence := u.confidence.getD existing.confidence
        processedAt :=
          if u.status = some "processed" ∧ existing.processedAt = none then some now
          else u.processedAt.getD existing.processedAt } := by
  by_cases h : u.status = some "processed" ∧ existing.processedAt = none
  · simp [updateDocument, h]
  · simp [updateDocument, h]

/-- C1: for every reachable document record, `extractedData` is non-null
exactly when `status` is `'processed'`: the success write is the only
write setting `extractedData`, the failure write leaves it untouched,
and the retry reset to `'queued'` never leaves a non-null
`extractedData` behind. -/
theorem c1_extracted_iff_processed (d : Document) (h : DocReachable d) :
    d.extractedData ≠ none ↔ d.status = "processed" := by
  induction h with
  | created id fn ofn ft mt fs fp up => simp [initialDocument]
  | step d d' hd hs ih =>
    cases hs with
    | startProcessing now hq =>
      have hE : d.extractedData = none := by
        by_contra hne
        rw [ih.mp hne] at hq
        simp at hq
      rw [updateDocument_processing]
      simp [hE]
    | succeed data pt conf now hp =>
      rw [updateDocument_success]
      simp
    | fail msg now hp =>
      have hE : d.extractedData = none := by
        by_contra hne
        rw [ih.mp hne] at hp
        simp at hp
      rw [updateDocument_failure]
      simp [hE]
    | retry now hf =>
      have hE : d.extractedData = none := by
        by_contra hne
        rw [ih.mp hne] at hf
        simp at hf
      rw [updateDocument_retry]
      simp [hE]

/-- C1 witness: the invariant at a concrete reachable record (a freshly
created document). -/
theorem c1_extracted_iff_processed_witness :
    (initialDocument 1 "a.png" "orig.png" "image" "image/png" 10 "up/a.png" 0).extractedData
        ≠ none ↔
      (initialDocument 1 "a.png" "orig.png" "image" "image/png" 10 "up/a.png" 0).status =
        "processed" :=
  c1_extracted_iff_processed _
    (DocReachable.created 1 "a.png" "orig.png" "image" "image/png" 10 "up/a.png" 0)

/-- C8: the terminal-failure write of the pipeline's catch block changes
only `status` (to `'failed'`) and `errorMessage`; every other column of
the record keeps its previous value. -/
theorem c8_failure_write_frame (d : Document) (msg : String) (now : Nat) :
    (updateDocument d (failureUpdate msg) now).status = "failed" ∧
    (updateDocument d (failureUpdate msg) now).errorMessage = some msg ∧
    (updateDocument d (failureUpdate msg) now).extractedData = d.extractedData ∧
    (updateDocument d (failureUpdate msg) now).processingTime = d.processingTime ∧
    (updateDocument d (failureUpdate msg) now).confidence = d.confidence ∧
    (updateDocument d (failureUpdate msg) now).processedAt = d.processedAt ∧
    (updateDocument d (failureUpdate msg) now).id = d.id ∧
    (updateDocument d (failureUpdate msg) now).uploadedAt = d.uploadedAt ∧
    (updateDocument d (failureUpdate msg) now).filename = d.filename ∧
    (updateDocument d (failureUpdate msg) now).originalFilename = d.originalFilename ∧
    (updateDocument d (failureUpdate msg) now).fileType = d.fileType ∧
    (updateDocument d (failureUpdate msg) now).mimeType = d.mimeType ∧
    (updateDocument d (failureUpdate msg) now).fileSize = d.fileSize ∧
    (updateDocument d (failureUpdate msg) now).filePath = d.filePath := by
  rw [updateDocument_failure]
  exact ⟨rfl, rfl, rfl, rfl, rfl, rfl, rfl, rfl, rfl, rfl, rfl, rfl, rfl, rfl⟩

/-- C9: for an existing id, the store's update merges the partial's
fields into the record, stamps `processedAt := now` exactly when the
partial sets status `'processed'` while the stored `processedAt` is
still null, and otherwise leaves a non-null `processedAt` unchanged
unless the partial explicitly carries one. -/
theorem c9_update_merges_and_stamps (docs : List (Nat × Document)) (id : Nat)
    (existing : Document) (u : UpdateDocument) (now : Nat)
    (hex : docs.lookup id = some existing) :
    storageUpdateDocument docs id u now = some (updateDocument existing u now) ∧
    ((updateDocument existing u now).filename = u.filename.getD existing.filename ∧
     (updateDocument existing u now).originalFilename =
       u.originalFilename.getD existing.originalFilename ∧
     (updateDocument existing u now).fileType = u.fileType.getD existing.fileType ∧
     (updateDocument existing u now).mimeType = u.mimeType.getD existing.mimeType ∧
     (updateDocument existing u now).fileSize = u.fileSize.getD existing.fileSize ∧
     (updateDocument existing u now).filePath = u.filePath.getD existing.filePath ∧
     (updateDocument existing u now).status = u.status.getD existing.status ∧
     (updateDocument existing u now).extractedData =
       u.extractedData.getD existing.extractedData ∧
     (updateDocument existing u now).errorMessage =
       u.errorMessage.getD existing.errorMessage ∧
     (updateDocument existing u now).processingTime =
       u.processingTime.getD existing.processingTime ∧
     (updateDocument existing u now).confidence = u.confidence.getD existing.confidence) ∧
    (updateDocument existing u now).id = existing.id ∧
    (updateDocument existing u now).uploadedAt = existing.uploadedAt ∧
    ((updateDocument existing u now).processedAt =
      if u.status = some "processed" ∧ existing.processedAt = none then some now
      else u.processedAt.getD existing.processedAt) ∧
    (∀ t : Nat, u.processedAt = none → existing.processedAt = some t →
      (updateDocument existing u now).processedAt = some t) := by
  refine ⟨?_, ?_, ?_, ?_, ?_, ?_⟩
  · unfold storageUpdateDocument
    rw [hex]
  · rw [updateDocument_spec]
    exact ⟨rfl, rfl, rfl, rfl, rfl, rfl, rfl, rfl, rfl, rfl, rfl⟩
  · rw [updateDocument_spec]
  · rw [updateDocument_spec]
  · rw [updateDocument_spec]
  · intro t h1 h2
    rw [updateDocument_spec]
    show (if u.status = some "processed" ∧ existing.processedAt = none then some now
      else u.processedAt.getD existing.processedAt) = some t
    rw [if_neg (by simp [h2]), h1, h2]
    rfl

/-- C9 witness: the characterization applied to a concrete store and a
concrete `status: 'processed'` partial stamps `processedAt`. -/
theorem c9_update_merges_and_stamps_witness :
    storageUpdateDocument [(1, docExample)] 1 { status := some "processed" } 777 =
      some (updateDocument docExample { status := some "processed" } 777) ∧
    (updateDocument docExample { status := some "processed" } 777).processedAt = some 777 := by
  have h := c9_update_merges_and_stamps [(1, docExample)] 1 docExample
    { status := some "processed" } 777 rfl
  refine ⟨h.1, ?_⟩
  rw [h.2.2.2.2.1]
  simp [docExample]

/-- C7: for a document whose normalization yielded pages, a page whose
extraction threw is skipped (the outcome only depends on the successful
pages); the run fails exactly when every page's extraction threw, and
then the persisted record is `'failed'` with the message that no data
could be extracted; one successful page suffices to end `'processed'`. -/
theorem c7_pages_skipped_and_all_fail (results : List (Except String ExtractedData))
    (d : Document) (pt : Int) (now : Nat) (_hne : results ≠ []) :
    processPdfPages results = processPdfPages (results.filter (fun r => r.isOk)) ∧
    ((∀ r ∈ results, r.isOk = false) ↔
      ∃ msg, processPdfPages results = PipelineOutcome.failure msg) ∧
    ((∀ r ∈ results, r.isOk = false) →
      processPdfPages results =
        PipelineOutcome.failure "No data could be extracted from any page" ∧
      (finishDocument d (processPdfPages results) pt now).status = "failed" ∧
      (finishDocument d (processPdfPages results) pt now).errorMessage =
        some "No data could be extracted from any page") ∧
    ((∃ r ∈ results, r.isOk = true) →
      (finishDocument d (processPdfPages results) pt now).status = "processed") := by
  refine ⟨?_, ⟨?_, ?_⟩, ?_, ?_⟩
  · unfold processPdfPages
    rw [collectPages_filter]
  · intro hall
    have hnil : collectPages results = [] := (collectPages_nil_iff results).mpr hall
    exact ⟨"No data could be extracted from any page", by simp [processPdfPages, hnil]⟩
  · rintro ⟨msg, hmsg⟩ r hr
    by_contra hok
    have hok' : r.isOk = true := by revert hok; cases r.isOk <;> simp
    have hnotnil : collectPages results ≠ [] := by
      intro h0
      have hbad := (collectPages_nil_iff results).mp h0 r hr
      rw [hok'] at hbad
      cases hbad
    have hlen : ¬((collectPages results).length = 0) := by
      simpa [List.length_eq_zero] using hnotnil
    simp only [processPdfPages] at hmsg
    rw [if_neg hlen] at hmsg
    cases hmsg
  · intro hall
    have hnil : collectPages results = [] := (collectPages_nil_iff results).mpr hall
    have hfail : processPdfPages results =
        PipelineOutcome.failure "No data could be extracted from any page" := by
      simp [processPdfPages, hnil]
    refine ⟨hfail, ?_, ?_⟩
    · rw [hfail]
      simp [finishDocument, updateDocument_failure]
    · rw [hfail]
      simp [finishDocument, updateDocument_failure]
  · rintro ⟨r, hr, hok⟩
    have hnotnil : collectPages results ≠ [] := by
      intro h0
      have hbad := (collectPages_nil_iff results).mp h0 r hr
      rw [hok] at hbad
      cases hbad
    have hlen : ¬((collectPages results).length = 0) := by
      simpa [List.length_eq_zero] using hnotnil
    have hsucc : processPdfPages results =
        PipelineOutcome.success (combineExtractedData (collectPages results)).1
          (combineExtractedData (collectPages results)).2 := by
      simp only [processPdfPages]
      rw [if_neg hlen]
    rw [hsucc]
    simp [finishDocument, updateDocument_success]

/-- C7 witness: a two-page PDF where both pages throw ends `'failed'`
with the no-data message. -/
theorem c7_pages_skipped_and_all_fail_witness :
    (finishDocument docExample
        (processPdfPages [Except.error "boom", Except.error "bust"]) 5 7).errorMessage =
      some "No data could be extracted from any page" :=
  ((c7_pages_skipped_and_all_fail [Except.error "boom", Except.error "bust"]
      docExample 5 7 (by simp)).2.2.1 (by decide)).2.2

/-- C2: appending one page to any merged prefix adopts that page's
value and confidence for a field exactly when the page's value is
non-empty and the merged value is absent or the page's confidence is
strictly greater; on exact ties the earlier page wins, and a strictly
higher confidence overrides. -/
theorem c2_merge_adopts_iff (pages : List ExtractedData) (p : ExtractedData) (f : String)
    (hf : f ∈ fieldNames) :
    (getField (mergePages (pages ++ [p])) f =
      if truthyStr (getField p f) = true ∧
          (getField (mergePages pages) f = none ∨
            confGet p.confidence f > confGet (mergePages pages).confidence f)
        then getField p f else getField (mergePages pages) f) ∧
    (confGet (mergePages (pages ++ [p])).confidence f =
      if truthyStr (getField p f) = true ∧
          (getField (mergePages pages) f = none ∨
            confGet p.confidence f > confGet (mergePages pages).confidence f)
        then confGet p.confidence f else confGet (mergePages pages).confidence f) ∧
    (mergePages [pageTieA, pageTieB]).cif = some "A" ∧
    (mergePages [pageTieA, pageOverrideB]).cif = some "B" := by
  have hsome := mergePages_confidence_isSome pages
  obtain ⟨h1, h2⟩ := mergePage_char (mergePages pages) p f hf hsome
  have hnice := mergePages_nice pages f
  have hcond : (adoptCond (mergePages pages) p f = true) ↔
      (truthyStr (getField p f) = true ∧
        (getField (mergePages pages) f = none ∨
          confGet p.confidence f > confGet (mergePages pages).confidence f)) := by
    unfold adoptCond
    rw [Bool.and_eq_true, Bool.or_eq_true, Bool.not_eq_true', truthy_false_iff_none _ hnice]
    simp [decide_eq_true_iff]
  refine ⟨?_, ?_, by decide, by decide⟩
  · rw [mergePages_append, h1]
    exact if_congr hcond rfl rfl
  · rw [mergePages_append, confGet_eq_confLookup, h2,
      apply_ite (fun o : Option Nat => o.getD 0)]
    simp only [Option.getD_some]
    rw [← confGet_eq_confLookup]
    exact if_congr hcond rfl rfl

/-- C2 witness: in the tie scenario the second page is not adopted, so
the first page's value stands. -/
theorem c2_merge_adopts_iff_witness :
    getField (mergePages ([pageTieA] ++ [pageTieB])) "cif" = some "A" := by
  rw [(c2_merge_adopts_iff [pageTieA] pageTieB "cif" (by decide)).1]
  decide

/-- C3: merging a duplicated single-page list is the same as merging the
page once — field values, the rebuilt name lists, the confidence map and
the average confidence all agree. -/
theorem c3_merge_idempotent_dup (p : ExtractedData) :
    combineExtractedData [p, p] = combineExtractedData [p] := by
  have adoptEmpty : ∀ g, adoptCond emptyCombined p g = truthyStr (getField p g) := by
    intro g
    unfold adoptCond
    rw [getField_emptyCombined]
    simp [truthyStr]
  have stepsId : ∀ (l : List String) (c : ExtractedData),
      (∀ g ∈ l, adoptCond c p g = false) →
      l.foldl (fun a g => mergeStep a p g) c = c := by
    intro l
    induction l with
    | nil => intro c _; rfl
    | cons g rest ih =>
      intro c hall
      simp only [List.foldl_cons]
      have hg : adoptCond c p g = false := hall g (List.mem_cons_self g rest)
      have hstep : mergeStep c p g = c := by simp [mergeStep, hg]
      rw [hstep]
      exact ih c (fun x hx => hall x (List.mem_cons_of_mem g hx))
  have key : mergePage (mergePage emptyCombined p) p = mergePage emptyCombined p := by
    have hfalse : ∀ g ∈ fieldNames,
        adoptCond (mergePage emptyCombined p) p g = false := by
      intro g hg
      obtain ⟨e1, e2⟩ := mergePage_char emptyCombined p g hg rfl
      rw [adoptEmpty g] at e1 e2
      cases htr : truthyStr (getField p g) with
      | false =>
        unfold adoptCond
        rw [htr]
        simp
      | true =>
        simp only [htr, if_pos] at e1 e2
        have hc : confGet (mergePage emptyCombined p).confidence g =
            confGet p.confidence g := by
          rw [confGet_eq_confLookup, e2]
          rfl
        unfold adoptCond
        rw [e1, hc, htr]
        simp [lt_irrefl]
    exact stepsId fieldNames (mergePage emptyCombined p) hfalse
  have hm : mergePages [p, p] = mergePages [p] := by
    show List.foldl mergePage emptyCombined [p, p] = List.foldl mergePage emptyCombined [p]
    simp only [List.foldl_cons, List.foldl_nil]
    exact key
  unfold combineExtractedData
  rw [hm]

/-- C4: the merge rebuilds `fieldsFound` as exactly the fields (among
the fixed six) with a non-absent merged value and `fieldsNotFound` as
the complement, both in the fixed schema order rather than discovery
order. -/
theorem c4_rebuild_found_filter (ps : List ExtractedData) :
    (combineExtractedData ps).1.fieldsFound =
      fieldNames.filter (fun f => (getField (mergePages ps) f).isSome) ∧
    (combineExtractedData ps).1.fieldsNotFound =
      fieldNames.filter (fun f => !(getField (mergePages ps) f).isSome) := by
  obtain ⟨hF, hNF, _, _⟩ := rebuildFields_spec (mergePages ps)
  obtain ⟨hl1, hl2⟩ := mergePages_lists ps
  constructor
  · show (rebuildFields (mergePages ps)).fieldsFound = _
    rw [hF, hl1, List.nil_append]
    refine List.filter_congr ?_
    intro f _
    rw [truthy_eq_isSome _ (mergePages_nice ps f)]
  · show (rebuildFields (mergePages ps)).fieldsNotFound = _
    rw [hNF, hl2, List.nil_append]
    refine List.filter_congr ?_
    intro f _
    rw [truthy_eq_isSome _ (mergePages_nice ps f)]

/-- C5: the average confidence persisted by the success write equals the
rounded arithmetic mean over only the entries of the final merged
confidence map, and is `0` when that map is empty. -/
theorem c5_avg_confidence_spec (ps : List ExtractedData) (d : Document)
    (pt : Int) (now : Nat) :
    ∃ m, (combineExtractedData ps).1.confidence = some m ∧
      (combineExtractedData ps).2 = specRoundedMean m ∧
      (m = [] → (combineExtractedData ps).2 = 0) ∧
      (updateDocument d
          (successUpdate (combineExtractedData ps).1 pt (combineExtractedData ps).2)
          now).confidence = some ((combineExtractedData ps).2) := by
  obtain ⟨_, _, hco, _⟩ := rebuildFields_spec (mergePages ps)
  obtain ⟨m, hm⟩ := Option.isSome_iff_exists.mp (mergePages_confidence_isSome ps)
  refine ⟨m, ?_, ?_, ?_, ?_⟩
  · show (rebuildFields (mergePages ps)).confidence = some m
    rw [hco, hm]
  · show avgConfidence (rebuildFields (mergePages ps)).confidence = specRoundedMean m
    rw [hco, hm, avgConfidence_eq_specRoundedMean]
  · intro hnil
    show avgConfidence (rebuildFields (mergePages ps)).confidence = 0
    rw [hco, hm, hnil]
    rfl
  · rw [updateDocument_success]

/-- C10: a page value with no (or a zero) confidence entry is adopted at
confidence `0`, a `0` entry is recorded in the merged confidence map,
and that `0` participates in — and lowers — the persisted average (one
field at 100 plus one entry-less field averages to 50, not 100). -/
theorem c10_missing_conf_entry_zero (p : ExtractedData) (f : String)
    (hf : f ∈ fieldNames)
    (hv : truthyStr (getField p f) = true)
    (hc : confGet p.confidence f = 0) :
    getField (mergePages [p]) f = getField p f ∧
    (∃ m, (mergePages [p]).confidence = some m ∧ m.lookup f = some 0) ∧
    (combineExtractedData [pageHalf]).2 = 50 := by
  have hsome : emptyCombined.confidence.isSome = true := rfl
  obtain ⟨h1, h2⟩ := mergePage_char emptyCombined p f hf hsome
  have hadopt : adoptCond emptyCombined p f = true := by
    unfold adoptCond
    rw [getField_emptyCombined, hv]
    simp [truthyStr]
  have hm1 : mergePages [p] = mergePage emptyCombined p := rfl
  refine ⟨?_, ?_, ?_⟩
  · rw [hm1, h1, if_pos hadopt]
  · obtain ⟨m, hmm⟩ :=
      Option.isSome_iff_exists.mp (mergePage_confidence_isSome emptyCombined p hsome)
    refine ⟨m, by rw [hm1]; exact hmm, ?_⟩
    rw [if_pos hadopt, hc, hmm] at h2
    exact h2
  · show avgConfidence (rebuildFields (mergePages [pageHalf])).confidence = 50
    have hconf : (rebuildFields (mergePages [pageHalf])).confidence =
        some [("cif", 100), ("fullName", 0)] := by decide
    rw [hconf, avgConfidence_eq_specRoundedMean]
    show specRoundedMean [("cif", 100), ("fullName", 0)] = 50
    unfold specRoundedMean
    norm_num [round_eq]

/-- C10 witness: a page whose `cif` is `'X'` with no confidence record
gets `cif` adopted with a recorded `0` confidence entry. -/
theorem c10_missing_conf_entry_zero_witness :
    getField (mergePages [pageNoConf]) "cif" = getField pageNoConf "cif" ∧
    (∃ m, (mergePages [pageNoConf]).confidence = some m ∧ m.lookup "cif" = some 0) ∧
    (combineExtractedData [pageHalf]).2 = 50 :=
  c10_missing_conf_entry_zero pageNoConf "cif" (by decide) (by decide) (by decide)

/-- C6 counterexample: the payload `null` is successfully returned by the
model (the external call did not error), yet the client raises — the
property read `result.cif` throws a `TypeError`, which the catch block
re-throws — so the claim that the client returns without raising on
every successfully returned payload, and raises only when the external
call itself errors, is false. -/
theorem c6_null_payload_raises :
    (extractDataFromImage JsonValue.null).isOk = false := rfl

/-- C6 (amended): for every successfully returned payload that parses to
a JSON value other than `null`, whose six field entries are each absent,
falsy, or a string, and whose confidence entry is absent, falsy, or an
object, the client returns — without raising — a well-formed record:
each field becomes the payload's value exactly when it is a non-empty
string and absent otherwise; `fieldsFound`/`fieldsNotFound` default to
the empty list when not arrays; `confidence` defaults to the empty
mapping unless the payload carries an object. -/
theorem c6_extract_wellformed_on_tame (result : JsonValue)
    (hnn : result ≠ JsonValue.null)
    (hcif : wfFieldValue (jsProp result "cif") = true)
    (hln : wfFieldValue (jsProp result "loanNumber") = true)
    (hac : wfFieldValue (jsProp result "account") = true)
    (hfn : wfFieldValue (jsProp result "fullName") = true)
    (hdpi : wfFieldValue (jsProp result "dpi") = true)
    (hla : wfFieldValue (jsProp result "loanAmount") = true)
    (hcv : wfConfValue (jsProp result "confidence") = true) :
    ∃ r, extractDataFromImage result = .ok r ∧
      r.cif = nonEmptyStringOf (jsProp result "cif") ∧
      r.loanNumber = nonEmptyStringOf (jsProp result "loanNumber") ∧
      r.account = nonEmptyStringOf (jsProp result "account") ∧
      r.fullName = nonEmptyStringOf (jsProp result "fullName") ∧
      r.dpi = nonEmptyStringOf (jsProp result "dpi") ∧
      r.loanAmount = nonEmptyStringOf (jsProp result "loanAmount") ∧
      r.fieldsFound = specArrayOf (jsProp result "fieldsFound") ∧
      r.fieldsNotFound = specArrayOf (jsProp result "fieldsNotFound") ∧
      r.confidence = specConfidenceOf (jsProp result "confidence") ∧
      wellFormedSixFields r = true := by
  refine ⟨_, extractDataFromImage_eq result hnn,
    orUndefined_eq_nonEmptyStringOf _ hcif,
    orUndefined_eq_nonEmptyStringOf _ hln,
    orUndefined_eq_nonEmptyStringOf _ hac,
    orUndefined_eq_nonEmptyStringOf _ hfn,
    orUndefined_eq_nonEmptyStringOf _ hdpi,
    orUndefined_eq_nonEmptyStringOf _ hla,
    rfl, rfl,
    confDefault_eq _ hcv, ?_⟩
  unfold wellFormedSixFields
  dsimp only
  rw [orUndefined_eq_nonEmptyStringOf _ hcif, orUndefined_eq_nonEmptyStringOf _ hln,
    orUndefined_eq_nonEmptyStringOf _ hac, orUndefined_eq_nonEmptyStringOf _ hfn,
    orUndefined_eq_nonEmptyStringOf _ hdpi, orUndefined_eq_nonEmptyStringOf _ hla,
    wfOutValue_nonEmptyStringOf, wfOutValue_nonEmptyStringOf, wfOutValue_nonEmptyStringOf,
    wfOutValue_nonEmptyStringOf, wfOutValue_nonEmptyStringOf, wfOutValue_nonEmptyStringOf]
  rfl

/-- C6 witness: the amended guarantee evaluated on the concrete payload. -/
theorem c6_extract_wellformed_on_tame_witness :
    ∃ r, extractDataFromImage payloadExample = .ok r ∧
      r.cif = nonEmptyStringOf (jsProp payloadExample "cif") ∧
      r.loanNumber = nonEmptyStringOf (jsProp payloadExample "loanNumber") ∧
      r.account = nonEmptyStringOf (jsProp payloadExample "account") ∧
      r.fullName = nonEmptyStringOf (jsProp payloadExample "fullName") ∧
      r.dpi = nonEmptyStringOf (jsProp payloadExample "dpi") ∧
      r.loanAmount = nonEmptyStringOf (jsProp payloadExample "loanAmount") ∧
      r.fieldsFound = specArrayOf (jsProp payloadExample "fieldsFound") ∧
      r.fieldsNotFound = specArrayOf (jsProp payloadExample "fieldsNotFound") ∧
      r.confidence = specConfidenceOf (jsProp payloadExample "confidence") ∧
      wellFormedSixFields r = true :=
  c6_extract_wellformed_on_tame payloadExample (by simp [payloadExample])
    rfl rfl rfl rfl rfl rfl rfl
